import Mathlib

/-!
Verification of the Go TODO API (`main.go`)

A shallow embedding of the in-memory task store and of its HTTP handlers,
followed by the properties claimed for them.

Modelling conventions

* The package-level variables `tasks` and `taskID` form the `Store`; every
  handler takes the store and returns the new store with its response. The
  handlers hold `taskMux` for their whole body, so they run one at a time and
  a run of the server is a sequence of handler calls.
* A Go slice is nil or allocated: `tasks` is an `Option (List Task)`, `none`
  being the nil slice (the zero value of the variable).
* Go's `int` is the 64-bit one (amd64, arm64 builds): a value is an `Int` in
  the range `-2^63 .. 2^63 - 1`, and `taskID++` wraps around (`wrapInt`), as
  the Go specification prescribes for signed overflow.
* A response is its status code, the `Content-Type` the handler sets, and its
  body; a body written by `encoding/json` is kept as a JSON value rather than
  as text.
-/

namespace TodoAPI

/-! ## Data model -/

/-- The `Task` struct. -/
structure Task where
  ID : Int
  Content : String
  Completed : Bool
  deriving DecidableEq, Repr

/-- A Go `[]Task`: `none` is the nil slice, `some l` an allocated slice holding `l`. -/
abbrev TaskSlice := Option (List Task)

/-- The elements of a slice; the nil slice has none. -/
def TaskSlice.elems : TaskSlice → List Task
  | none => []
  | some l => l

/-- Go's 64-bit `int` arithmetic: the result of an operation is reduced modulo `2^64`
into the range `-2^63 .. 2^63 - 1`. -/
def wrapInt (x : Int) : Int := (x + 2 ^ 63) % 2 ^ 64 - 2 ^ 63

/-- The package-level state: `tasks` and `taskID`. -/
structure Store where
  tasks : TaskSlice
  taskID : Int
  deriving DecidableEq, Repr

/-- The state at process start: both variables hold their zero value. -/
def Store.init : Store := ⟨none, 0⟩

/-! ## JSON values and responses -/

/-- JSON values, as produced by `encoding/json`. -/
inductive Json where
  | null
  | bool (b : Bool)
  | num (n : Int)
  | str (s : String)
  | arr (items : List Json)
  | obj (fields : List (String × Json))

/-- Encoding of a `Task`, following the struct tags `id`, `content`, `completed`. -/
def encodeTask (t : Task) : Json :=
  .obj [("id", .num t.ID), ("content", .str t.Content), ("completed", .bool t.Completed)]

/-- Encoding of a `[]Task`: `encoding/json` writes a nil slice as `null` and an
allocated slice as an array. -/
def encodeTasks : TaskSlice → Json
  | none => .null
  | some l => .arr (l.map encodeTask)

/-- Look a member up in a JSON object. -/
def Json.field (name : String) : Json → Option Json
  | .obj fields => (fields.find? (fun p => p.1 == name)).map Prod.snd
  | _ => none

/-- What a handler writes as body. -/
inductive Body where
  | empty
  | text (s : String)
  | json (v : Json)

/-- An HTTP response: status code, the `Content-Type` header when the handler
sets one, and the body. -/
structure Response where
  status : Nat
  contentType : Option String
  body : Body

/-- Go's `http.Error`: a plain-text body made of the message and a newline. -/
def httpError (msg : String) (code : Nat) : Response :=
  ⟨code, some "text/plain; charset=utf-8", .text (msg ++ "\n")⟩

/-- An HTTP request, as far as the handlers read it. -/
structure Request where
  method : String
  path : String
  body : String

/-! ## `fmt.Sscanf(path, "/tasks/%d", &id)` -/

/-- The white space of package `fmt` (its `space` table). -/
def isSpace (c : Char) : Bool :=
  let n := c.toNat
  (0x0009 ≤ n && n ≤ 0x000d) || n == 0x0020 || n == 0x0085 || n == 0x00a0 ||
  n == 0x1680 || (0x2000 ≤ n && n ≤ 0x200a) || n == 0x2028 || n == 0x2029 ||
  n == 0x202f || n == 0x205f || n == 0x3000

/-- Scanner `SkipSpace` for `Sscanf`: spaces are skipped, a newline is an error. -/
def skipSpace : List Char → Option (List Char)
  | [] => some []
  | c :: cs =>
    if c = '\n' then none
    else if isSpace c then skipSpace cs
    else some (c :: cs)

/-- Matching of the literal part of a format against the input, rune by rune. -/
def matchLiteral : List Char → List Char → Option (List Char)
  | [], input => some input
  | _ :: _, [] => none
  | f :: fs, c :: cs => if f = c then matchLiteral fs cs else none

/-- The runes `scanNumber` accepts for the verb `%d`: the decimal digits. -/
def isNumberRune (c : Char) : Bool := c.isDigit

/-- Value of a run of decimal digits. -/
def digitsValue (ds : List Char) : Nat :=
  ds.foldl (fun acc c => 10 * acc + (c.toNat - '0'.toNat)) 0

/-- The leading sign of a token, as `strconv.ParseInt` picks it off: whether the
number is negative, and the rest of the token. -/
def splitSign : List Char → Bool × List Char
  | '+' :: r => (false, r)
  | '-' :: r => (true, r)
  | r => (false, r)

/-- Go's `strconv.ParseInt(tok, 10, 64)`: an optional sign, then decimal digits
only, and a value that fits 64 bits. -/
def parseInt (tok : List Char) : Option Int :=
  let neg := (splitSign tok).1
  let ds := (splitSign tok).2
  if ds.isEmpty || !ds.all Char.isDigit then none
  else
    let un := digitsValue ds
    if !neg && un ≥ 2 ^ 63 then none
    else if neg && un > 2 ^ 63 then none
    else some (if neg then -(un : Int) else (un : Int))

/-- The scanner's `scanInt` for `%d`: skip spaces, take an optional sign and the
longest run of number runes (at least one), and parse that token; what follows
the token is left unread. -/
def scanInt (input : List Char) : Option Int :=
  match skipSpace input with
  | none => none
  | some [] => none
  | some (c :: cs) =>
    let sign : List Char := if c = '+' ∨ c = '-' then [c] else []
    let rest : List Char := if c = '+' ∨ c = '-' then cs else c :: cs
    let run := rest.takeWhile isNumberRune
    if run.isEmpty then none else parseInt (sign ++ run)

/-- The function `extractTaskID`; `none` stands for a non-nil error. -/
def extractTaskID (path : String) : Option Int :=
  match matchLiteral "/tasks/".toList path.toList with
  | none => none
  | some rest =>
    match skipSpace rest with
    | none => none
    | some rest1 => scanInt rest1

/-! ## Handlers -/

/-- Index of the first task whose `ID` is `id`: the scan of both `for` loops. -/
def findTask (id : Int) : List Task → Option Nat
  | [] => none
  | t :: ts => if t.ID = id then some 0 else (findTask id ts).map (· + 1)

/-- The handler `welcomeMessage`. -/
def welcomeMessage (s : Store) : Store × Response :=
  (s, ⟨200, none, .text "Welcome to the Go TODO API!\nUse /tasks endpoint to manage your TODOs.\n"⟩)

/-- The handler `getTasks`. -/
def getTasks (s : Store) : Store × Response :=
  (s, ⟨200, some "application/json", .json (encodeTasks s.tasks)⟩)

/-- The handler `addTask`. The parameter `decode` is `json.Decoder.Decode` into
a zero `Task`: `none` when it returns an error, the filled struct otherwise.
The increment `taskID++` is the wrapping one of Go's `int`. -/
def addTask (decode : String → Option Task) (s : Store) (body : String) : Store × Response :=
  match decode body with
  | none => (s, httpError "Invalid task data" 400)
  | some newTask =>
    let taskID := wrapInt (s.taskID + 1)
    let newTask : Task := { newTask with ID := taskID, Completed := false }
    (⟨some (s.tasks.elems ++ [newTask]), taskID⟩, ⟨201, none, .json (encodeTask newTask)⟩)

/-- The handler `deleteTask`: `append(tasks[:i], tasks[i+1:]...)` at the first match. -/
def deleteTask (s : Store) (id : Int) : Store × Response :=
  match findTask id s.tasks.elems with
  | some i =>
    ({ s with tasks := some (s.tasks.elems.take i ++ s.tasks.elems.drop (i + 1)) },
      ⟨204, none, .empty⟩)
  | none => (s, httpError "Task not found" 404)

/-- The handler `markTaskCompleted`: `tasks[i].Completed = true` at the first match,
answered with `tasks[i]`. The index comes from the scan, so the lookup of `tasks[i]`
always succeeds (`markTaskCompleted_found`). -/
def markTaskCompleted (s : Store) (id : Int) : Store × Response :=
  match findTask id s.tasks.elems with
  | some i =>
    match s.tasks.elems.get? i with
    | some t =>
      let t1 : Task := { t with Completed := true }
      ({ s with tasks := some (s.tasks.elems.set i t1) },
        ⟨200, some "application/json", .json (encodeTask t1)⟩)
    | none => (s, httpError "Task not found" 404)
  | none => (s, httpError "Task not found" 404)

/-- The handler `handleTasks`. -/
def handleTasks (decode : String → Option Task) (s : Store) (r : Request) : Store × Response :=
  if r.method = "GET" then getTasks s
  else if r.method = "POST" then addTask decode s r.body
  else (s, httpError "Method not allowed" 405)

/-- The handler `handleTaskByID`. -/
def handleTaskByID (s : Store) (r : Request) : Store × Response :=
  match extractTaskID r.path with
  | none => (s, httpError "Invalid task ID" 400)
  | some id =>
    if r.method = "DELETE" then deleteTask s id
    else if r.method = "PATCH" then markTaskCompleted s id
    else (s, httpError "Method not allowed" 405)

/-! ## Runs of the server -/

/-- The four store operations. -/
inductive Op where
  | list
  | create (body : String)
  | delete (id : Int)
  | complete (id : Int)
  deriving DecidableEq

/-- One operation on the store. -/
def step (decode : String → Option Task) (s : Store) : Op → Store × Response
  | .list => getTasks s
  | .create body => addTask decode s body
  | .delete id => deleteTask s id
  | .complete id => markTaskCompleted s id

/-- A sequence of operations, with the responses in order. -/
def run (decode : String → Option Task) (s : Store) : List Op → Store × List Response
  | [] => (s, [])
  | op :: ops =>
    let r := step decode s op
    let rest := run decode r.1 ops
    (rest.1, r.2 :: rest.2)

/-- The id a create assigned, read off its `201` response. -/
def assignedID (r : Response) : Option Int :=
  if r.status = 201 then
    match r.body with
    | .json v =>
      match v.field "id" with
      | some (.num n) => some n
      | _ => none
    | _ => none
  else none

/-- The ids assigned by the creates of a run, in order. -/
def assignedIDs (rs : List Response) : List Int := rs.filterMap assignedID

/-- The ids of the stored tasks, in stored order. -/
def Store.ids (s : Store) : List Int := s.tasks.elems.map Task.ID

/-- The ids the counter hands out to the first `n` creates, in order:
`1, 2, ...`, wrapping around after `2^63 - 1`. -/
def firstIDs (n : Nat) : List Int :=
  (List.range n).map (fun (i : Nat) => wrapInt ((i : Int) + 1))

/-- A run of `n` creates with the same body. -/
def creates (body : String) (n : Nat) : List Op := List.replicate n (Op.create body)

/-- How a task that stays in the store may differ after the operation `op`: same
`ID` and `Content`, `Completed` never reset, and set only by a mark-complete on
the task's own id. -/
def Evolves (op : Op) (t t1 : Task) : Prop :=
  t1.ID = t.ID ∧ t1.Content = t.Content ∧ (t.Completed = true → t1.Completed = true) ∧
    (t.Completed = false → t1.Completed = true → op = Op.complete t.ID)

instance (op : Op) (t t1 : Task) : Decidable (Evolves op t t1) := by
  unfold Evolves
  infer_instance

/-- A create body carrying only a content. -/
def milkBody : String := "\x7b\"content\":\"buy milk\"\x7d"

/-- A create body carrying an id and `completed: true` as well. -/
def walkBody : String := "\x7b\"id\":7,\"content\":\"walk\",\"completed\":true\x7d"

/-- A decoder for two request bodies, standing in for `json.Decoder.Decode`. -/
def sampleDecode (body : String) : Option Task :=
  if body = milkBody then some ⟨0, "buy milk", false⟩
  else if body = walkBody then some ⟨7, "walk", true⟩
  else none

/-- The store after the first create, of `milkBody`. -/
def milkStore : Store := ⟨some [⟨1, "buy milk", false⟩], 1⟩

/-- The response to the first create, of `milkBody`. -/
def milkResponse : Response := ⟨201, none, .json (encodeTask ⟨1, "buy milk", false⟩)⟩

/-- A store in which two tasks share an id. -/
def twinStore : Store :=
  ⟨some [⟨1, "a", false⟩, ⟨2, "b", false⟩, ⟨2, "c", true⟩, ⟨3, "d", false⟩], 3⟩

/-! ## The wrapping counter -/

theorem wrapInt_of_range {x : Int} (h1 : -2 ^ 63 ≤ x) (h2 : x < 2 ^ 63) : wrapInt x = x := by
  unfold wrapInt
  omega

theorem wrapInt_succ (x : Int) : wrapInt (wrapInt x + 1) = wrapInt (x + 1) := by
  unfold wrapInt
  omega

theorem wrapInt_one : wrapInt 1 = 1 := by
  unfold wrapInt
  omega

theorem wrapInt_inj {a b : Nat} (ha : a < 2 ^ 64) (hb : b < 2 ^ 64)
    (h : wrapInt ((a : Int) + 1) = wrapInt ((b : Int) + 1)) : a = b := by
  unfold wrapInt at h
  omega

theorem mem_firstIDs {n : Nat} {j : Int} :
    j ∈ firstIDs n ↔ ∃ i, i < n ∧ wrapInt ((i : Int) + 1) = j := by
  simp [firstIDs]

theorem firstIDs_succ (n : Nat) :
    firstIDs (n + 1) = firstIDs n ++ [wrapInt ((n : Int) + 1)] := by
  simp [firstIDs, List.range_succ]

theorem length_firstIDs (n : Nat) : (firstIDs n).length = n := by
  simp [firstIDs]

/-- Up to `2^63 - 1` creates the ids handed out are `1, ..., n`. -/
theorem firstIDs_bounded {n : Nat} (hn : n ≤ 2 ^ 63 - 1) {j : Int} (hj : j ∈ firstIDs n) :
    1 ≤ j ∧ j ≤ n := by
  obtain ⟨i, hi, rfl⟩ := mem_firstIDs.1 hj
  unfold wrapInt
  omega

theorem firstIDs_increasing {n : Nat} (hn : n ≤ 2 ^ 63 - 1) :
    (firstIDs n).Pairwise (· < ·) := by
  unfold firstIDs
  rw [List.pairwise_map]
  refine (List.pairwise_lt_range n).imp_of_mem ?_
  intro a b ha hb hab
  rw [List.mem_range] at ha hb
  unfold wrapInt
  omega

/-- Up to `2^64` creates the ids handed out are pairwise distinct. -/
theorem firstIDs_nodup {n : Nat} (hn : n ≤ 2 ^ 64) : (firstIDs n).Nodup := by
  unfold firstIDs
  refine List.Nodup.map_on ?_ (List.nodup_range n)
  intro a ha b hb hab
  rw [List.mem_range] at ha hb
  exact wrapInt_inj (by omega) (by omega) hab

theorem firstIDs_fresh {n : Nat} (hn : n < 2 ^ 64) :
    wrapInt ((n : Int) + 1) ∉ firstIDs n := by
  intro h
  obtain ⟨i, hi, hval⟩ := mem_firstIDs.1 h
  have := wrapInt_inj (by omega) hn hval
  omega

theorem firstIDs_latest {n : Nat} (hn : n ≠ 0) : wrapInt (n : Int) ∈ firstIDs n := by
  refine mem_firstIDs.2 ⟨n - 1, by omega, ?_⟩
  congr 1
  omega

/-- Strictly increasing ids cannot go past the wrap-around. -/
theorem firstIDs_pairwise_lt {n a b : Nat} (h : (firstIDs n).Pairwise (· < ·))
    (hab : a < b) (hb : b < n) : wrapInt ((a : Int) + 1) < wrapInt ((b : Int) + 1) := by
  unfold firstIDs at h
  rw [List.pairwise_map] at h
  have h1 := List.pairwise_iff_getElem.1 h a b (by simp; omega) (by simp; omega) hab
  simpa using h1

/-! ## The scan for an id -/

theorem findTask_eq_none {id : Int} {l : List Task} :
    findTask id l = none ↔ ∀ t ∈ l, t.ID ≠ id := by
  induction l with
  | nil => simp [findTask]
  | cons t ts ih =>
    by_cases h : t.ID = id
    · simp [findTask, h]
    · simp [findTask, h, ih]

theorem findTask_append {id : Int} (pre : List Task) (t : Task) (post : List Task)
    (ht : t.ID = id) (hpre : ∀ x ∈ pre, x.ID ≠ id) :
    findTask id (pre ++ t :: post) = some pre.length := by
  induction pre with
  | nil => simp [findTask, ht]
  | cons x xs ih =>
    have hx : x.ID ≠ id := hpre x (List.mem_cons_self _ _)
    have hxs : ∀ y ∈ xs, y.ID ≠ id := fun y hy => hpre y (List.mem_cons_of_mem _ hy)
    simp [findTask, hx, ih hxs]

theorem findTask_eq_some {id : Int} {l : List Task} {i : Nat} (h : findTask id l = some i) :
    ∃ pre t post, l = pre ++ t :: post ∧ pre.length = i ∧ t.ID = id ∧
      ∀ x ∈ pre, x.ID ≠ id := by
  induction l generalizing i with
  | nil => simp [findTask] at h
  | cons t ts ih =>
    by_cases ht : t.ID = id
    · simp [findTask, ht] at h
      exact ⟨[], t, ts, rfl, by simpa using h, ht, by simp⟩
    · simp only [findTask, ht, if_false, Option.map_eq_some'] at h
      obtain ⟨j, hj, rfl⟩ := h
      obtain ⟨pre, u, post, hl, hlen, hu, hpre⟩ := ih hj
      refine ⟨t :: pre, u, post, by simp [hl], by simp [hlen], hu, ?_⟩
      intro x hx
      rcases List.mem_cons.1 hx with rfl | hx
      · exact ht
      · exact hpre x hx

/-- A stored id splits the sequence at its first occurrence. -/
theorem exists_first {id : Int} {l : List Task} (h : id ∈ l.map Task.ID) :
    ∃ pre t post, l = pre ++ t :: post ∧ t.ID = id ∧ ∀ x ∈ pre, x.ID ≠ id := by
  cases hf : findTask id l with
  | none =>
    rw [findTask_eq_none] at hf
    obtain ⟨t, ht, hid⟩ := List.mem_map.1 h
    exact absurd hid (hf t ht)
  | some i =>
    obtain ⟨pre, t, post, hl, _, ht, hpre⟩ := findTask_eq_some hf
    exact ⟨pre, t, post, hl, ht, hpre⟩

/-! ## What each handler does -/

theorem deleteTask_found {s : Store} {id : Int} {pre post : List Task} {t : Task}
    (hl : s.tasks.elems = pre ++ t :: post) (ht : t.ID = id) (hpre : ∀ x ∈ pre, x.ID ≠ id) :
    deleteTask s id = (⟨some (pre ++ post), s.taskID⟩, ⟨204, none, .empty⟩) := by
  simp [deleteTask, hl, findTask_append pre t post ht hpre]

theorem deleteTask_not_found {s : Store} {id : Int} (h : ∀ t ∈ s.tasks.elems, t.ID ≠ id) :
    deleteTask s id = (s, httpError "Task not found" 404) := by
  simp [deleteTask, findTask_eq_none.2 h]

theorem markTaskCompleted_found {s : Store} {id : Int} {pre post : List Task} {t : Task}
    (hl : s.tasks.elems = pre ++ t :: post) (ht : t.ID = id) (hpre : ∀ x ∈ pre, x.ID ≠ id) :
    markTaskCompleted s id =
      (⟨some (pre ++ { t with Completed := true } :: post), s.taskID⟩,
        ⟨200, some "application/json", .json (encodeTask { t with Completed := true })⟩) := by
  have hget : (pre ++ t :: post).get? pre.length = some t := by
    rw [List.get?_eq_getElem?, List.getElem?_append_right (le_refl _)]
    simp
  have hset : (pre ++ t :: post).set pre.length { t with Completed := true } =
      pre ++ { t with Completed := true } :: post := by simp
  simp only [markTaskCompleted, hl, findTask_append pre t post ht hpre, hget, hset]

theorem markTaskCompleted_not_found {s : Store} {id : Int}
    (h : ∀ t ∈ s.tasks.elems, t.ID ≠ id) :
    markTaskCompleted s id = (s, httpError "Task not found" 404) := by
  simp [markTaskCompleted, findTask_eq_none.2 h]

theorem addTask_decoded {decode : String → Option Task} {s : Store} {body : String} {t : Task}
    (h : decode body = some t) :
    addTask decode s body =
      (⟨some (s.tasks.elems ++ [⟨wrapInt (s.taskID + 1), t.Content, false⟩]),
          wrapInt (s.taskID + 1)⟩,
        ⟨201, none, .json (encodeTask ⟨wrapInt (s.taskID + 1), t.Content, false⟩)⟩) := by
  simp [addTask, h]

theorem addTask_undecoded {decode : String → Option Task} {s : Store} {body : String}
    (h : decode body = none) :
    addTask decode s body = (s, httpError "Invalid task data" 400) := by
  simp [addTask, h]

theorem assignedID_encodeTask (t : Task) (ct : Option String) :
    assignedID ⟨201, ct, .json (encodeTask t)⟩ = some t.ID := by
  simp [assignedID, encodeTask, Json.field]

theorem assignedID_of_status {r : Response} (h : r.status ≠ 201) : assignedID r = none := by
  simp [assignedID, h]

/-! ## Requests and operations -/

/-- A request to `/tasks` is a list, a create, or is refused without touching the store. -/
theorem handleTasks_cases (decode : String → Option Task) (s : Store) (r : Request) :
    handleTasks decode s r = step decode s Op.list ∨
      handleTasks decode s r = step decode s (Op.create r.body) ∨
      handleTasks decode s r = (s, httpError "Method not allowed" 405) := by
  unfold handleTasks
  split_ifs <;> simp [step]

/-- A request under `/tasks/` is refused without touching the store, or is the delete
or the mark-complete of the id parsed from its path. -/
theorem handleTaskByID_cases (decode : String → Option Task) (s : Store) (r : Request) :
    handleTaskByID s r = (s, httpError "Invalid task ID" 400) ∨
      handleTaskByID s r = (s, httpError "Method not allowed" 405) ∨
      ∃ id, extractTaskID r.path = some id ∧
        (handleTaskByID s r = step decode s (Op.delete id) ∨
          handleTaskByID s r = step decode s (Op.complete id)) := by
  unfold handleTaskByID
  cases h : extractTaskID r.path with
  | none => exact Or.inl rfl
  | some id =>
    refine Or.inr ?_
    by_cases h1 : r.method = "DELETE"
    · exact Or.inr ⟨id, rfl, Or.inl (by simp [h1, step])⟩
    · by_cases h2 : r.method = "PATCH"
      · exact Or.inr ⟨id, rfl, Or.inr (by simp [h1, h2, step])⟩
      · exact Or.inl (by simp [h1, h2])

/-! ## The invariant of a run -/

/-- What holds of a store together with the ids assigned so far: the counter is the
number of ids assigned, wrapped; the ids assigned are the first ones the counter
hands out; and the stored ids are, in order, among the assigned ones. -/
structure Inv (s : Store) (ids : List Int) : Prop where
  counter : s.taskID = wrapInt (ids.length : Int)
  shape : ids = firstIDs ids.length
  stored : List.Sublist s.ids ids

theorem inv_init : Inv Store.init [] := by
  refine ⟨?_, rfl, List.Sublist.refl _⟩
  show (0 : Int) = wrapInt ((0 : Nat) : Int)
  unfold wrapInt
  omega

/-- A step that assigns no id, keeps the counter and keeps or thins out the stored ids
preserves the invariant. -/
theorem inv_of_sublist {s s1 : Store} {r : Response} {ids : List Int} (h : Inv s ids)
    (hr : r.status ≠ 201) (hc : s1.taskID = s.taskID) (hsub : List.Sublist s1.ids s.ids) :
    Inv (s1, r).1 (ids ++ (assignedID (s1, r).2).toList) := by
  simp only [assignedID_of_status hr, Option.toList, List.append_nil]
  exact ⟨hc.trans h.counter, h.shape, hsub.trans h.stored⟩

theorem inv_getTasks {s : Store} {ids : List Int} (h : Inv s ids) :
    Inv (getTasks s).1 (ids ++ (assignedID (getTasks s).2).toList) :=
  inv_of_sublist h (by simp) rfl (List.Sublist.refl _)

theorem inv_addTask (decode : String → Option Task) {s : Store} {ids : List Int}
    (body : String) (h : Inv s ids) :
    Inv (addTask decode s body).1 (ids ++ (assignedID (addTask decode s body).2).toList) := by
  cases hd : decode body with
  | none =>
    rw [addTask_undecoded hd]
    exact inv_of_sublist h (by decide) rfl (List.Sublist.refl _)
  | some t =>
    rw [addTask_decoded hd]
    simp only [assignedID_encodeTask, Option.toList]
    have hk : wrapInt (s.taskID + 1) = wrapInt ((ids.length : Int) + 1) := by
      rw [h.counter, wrapInt_succ]
    have hlen : (ids ++ [wrapInt (s.taskID + 1)]).length = ids.length + 1 := by simp
    refine ⟨?_, ?_, ?_⟩
    · show wrapInt (s.taskID + 1) = wrapInt (((ids ++ [wrapInt (s.taskID + 1)]).length : Nat) : Int)
      rw [hlen, hk]
      push_cast
      rfl
    · rw [hlen, firstIDs_succ, ← h.shape, hk]
    · show List.Sublist
        (List.map Task.ID (s.tasks.elems ++ [⟨wrapInt (s.taskID + 1), t.Content, false⟩])) _
      rw [List.map_append]
      exact h.stored.append (List.Sublist.refl _)

theorem inv_deleteTask {s : Store} {ids : List Int} (id : Int) (h : Inv s ids) :
    Inv (deleteTask s id).1 (ids ++ (assignedID (deleteTask s id).2).toList) := by
  cases hf : findTask id s.tasks.elems with
  | none =>
    rw [deleteTask_not_found (findTask_eq_none.1 hf)]
    exact inv_of_sublist h (by decide) rfl (List.Sublist.refl _)
  | some i =>
    obtain ⟨pre, t, post, hl, _, ht, hpre⟩ := findTask_eq_some hf
    rw [deleteTask_found hl ht hpre]
    refine inv_of_sublist h (by decide) rfl ?_
    show List.Sublist (List.map Task.ID (pre ++ post)) (List.map Task.ID s.tasks.elems)
    rw [hl]
    exact ((List.Sublist.refl pre).append (List.sublist_cons_self t post)).map _

theorem inv_markTaskCompleted {s : Store} {ids : List Int} (id : Int) (h : Inv s ids) :
    Inv (markTaskCompleted s id).1
      (ids ++ (assignedID (markTaskCompleted s id).2).toList) := by
  cases hf : findTask id s.tasks.elems with
  | none =>
    rw [markTaskCompleted_not_found (findTask_eq_none.1 hf)]
    exact inv_of_sublist h (by decide) rfl (List.Sublist.refl _)
  | some i =>
    obtain ⟨pre, t, post, hl, _, ht, hpre⟩ := findTask_eq_some hf
    rw [markTaskCompleted_found hl ht hpre]
    refine inv_of_sublist h (by simp) rfl ?_
    show List.Sublist (List.map Task.ID (pre ++ { t with Completed := true } :: post))
      (List.map Task.ID s.tasks.elems)
    rw [hl]
    simp

theorem inv_step (decode : String → Option Task) {s : Store} {ids : List Int} (op : Op)
    (h : Inv s ids) :
    Inv (step decode s op).1 (ids ++ (assignedID (step decode s op).2).toList) := by
  cases op with
  | list => exact inv_getTasks h
  | create body => exact inv_addTask decode body h
  | delete id => exact inv_deleteTask id h
  | complete id => exact inv_markTaskCompleted id h

theorem assignedIDs_cons (r : Response) (rs : List Response) :
    assignedIDs (r :: rs) = (assignedID r).toList ++ assignedIDs rs := by
  cases h : assignedID r <;> simp [assignedIDs, List.filterMap_cons, h]

theorem inv_run (decode : String → Option Task) (ops : List Op) :
    ∀ {s : Store} {ids : List Int}, Inv s ids →
      Inv (run decode s ops).1 (ids ++ assignedIDs (run decode s ops).2) := by
  induction ops with
  | nil =>
    intro s ids h
    simpa [run, assignedIDs] using h
  | cons op ops ih =>
    intro s ids h
    have h1 := ih (inv_step decode op h)
    simpa [run, assignedIDs_cons, List.append_assoc] using h1

/-- The invariant holds of every store reached from the initial one. -/
theorem inv_reachable (decode : String → Option Task) (ops : List Op) :
    Inv (run decode Store.init ops).1 (assignedIDs (run decode Store.init ops).2) := by
  simpa using inv_run decode ops inv_init

/-- The slice `tasks` is nil exactly as long as no create has succeeded. -/
theorem alloc_step (decode : String → Option Task) {s : Store} {ids : List Int} (op : Op)
    (h : s.tasks = none ↔ ids = []) :
    (step decode s op).1.tasks = none ↔ ids ++ (assignedID (step decode s op).2).toList = [] := by
  have hnil : ∀ {pre post : List Task} {t : Task}, s.tasks.elems = pre ++ t :: post →
      ids ≠ [] := by
    intro pre post t hl hids
    rw [h.2 hids] at hl
    simp [TaskSlice.elems] at hl
  cases op with
  | list => simpa [step, getTasks, assignedID] using h
  | create body =>
    cases hd : decode body with
    | none => simpa [step, addTask_undecoded hd, assignedID, httpError] using h
    | some t => simp [step, addTask_decoded hd, assignedID_encodeTask]
  | delete id =>
    cases hf : findTask id s.tasks.elems with
    | none =>
      simpa [step, deleteTask_not_found (findTask_eq_none.1 hf), assignedID, httpError] using h
    | some i =>
      obtain ⟨pre, t, post, hl, _, ht, hpre⟩ := findTask_eq_some hf
      simpa [step, deleteTask_found hl ht hpre, assignedID] using hnil hl
  | complete id =>
    cases hf : findTask id s.tasks.elems with
    | none =>
      simpa [step, markTaskCompleted_not_found (findTask_eq_none.1 hf), assignedID, httpError]
        using h
    | some i =>
      obtain ⟨pre, t, post, hl, _, ht, hpre⟩ := findTask_eq_some hf
      simpa [step, markTaskCompleted_found hl ht hpre, assignedID] using hnil hl

theorem alloc_run (decode : String → Option Task) (ops : List Op) :
    ∀ {s : Store} {ids : List Int}, (s.tasks = none ↔ ids = []) →
      ((run decode s ops).1.tasks = none ↔ ids ++ assignedIDs (run decode s ops).2 = []) := by
  induction ops with
  | nil =>
    intro s ids h
    simpa [run, assignedIDs] using h
  | cons op ops ih =>
    intro s ids h
    have h1 := ih (alloc_step decode op h)
    simpa [run, assignedIDs_cons, List.append_assoc] using h1

/-- In a store reached from the initial one, `tasks` is nil exactly when no create
has succeeded yet. -/
theorem alloc_reachable (decode : String → Option Task) (ops : List Op) :
    (run decode Store.init ops).1.tasks = none ↔
      assignedIDs (run decode Store.init ops).2 = [] := by
  simpa using @alloc_run decode ops Store.init [] (by simp [Store.init])

theorem inv_of_run {decode : String → Option Task} {ops : List Op} {s : Store}
    {rs : List Response} (hrun : run decode Store.init ops = (s, rs)) :
    Inv s (assignedIDs rs) := by
  have h := inv_reachable decode ops
  rw [hrun] at h
  exact h

/-! ## Runs of creates -/

theorem creates_succ (body : String) (n : Nat) :
    creates body (n + 1) = Op.create body :: creates body n := rfl

theorem creates_succ_last (body : String) (n : Nat) :
    creates body (n + 1) = creates body n ++ [Op.create body] := by
  induction n with
  | zero => rfl
  | succ k ih =>
    show Op.create body :: creates body (k + 1) =
      (Op.create body :: creates body k) ++ [Op.create body]
    rw [ih]
    rfl

theorem run_append (decode : String → Option Task) (a b : List Op) :
    ∀ s : Store, run decode s (a ++ b) =
      ((run decode (run decode s a).1 b).1,
        (run decode s a).2 ++ (run decode (run decode s a).1 b).2) := by
  induction a with
  | nil => intro s; rfl
  | cons op ops ih =>
    intro s
    show ((run decode (step decode s op).1 (ops ++ b)).1,
        (step decode s op).2 :: (run decode (step decode s op).1 (ops ++ b)).2) = _
    rw [ih]
    rfl

theorem run_creates_last (decode : String → Option Task) (body : String) (n : Nat)
    (s : Store) :
    run decode s (creates body n ++ [Op.create body]) =
      ((addTask decode (run decode s (creates body n)).1 body).1,
        (run decode s (creates body n)).2 ++
          [(addTask decode (run decode s (creates body n)).1 body).2]) := by
  rw [run_append]
  rfl

theorem assignedIDs_append (a b : List Response) :
    assignedIDs (a ++ b) = assignedIDs a ++ assignedIDs b := by
  simp [assignedIDs, List.filterMap_append]

theorem length_assignedIDs_creates {decode : String → Option Task} {body : String} {t : Task}
    (hd : decode body = some t) :
    ∀ (n : Nat) (s : Store), (assignedIDs (run decode s (creates body n)).2).length = n := by
  intro n
  induction n with
  | zero => intro s; rfl
  | succ k ih =>
    intro s
    rw [creates_succ]
    simp only [run, step, assignedIDs_cons, addTask_decoded hd, assignedID_encodeTask,
      Option.toList, List.length_append, List.length_singleton, ih]
    omega

theorem elems_creates {decode : String → Option Task} {body : String} {t : Task}
    (hd : decode body = some t) :
    ∀ (n : Nat) (s : Store), ∃ extra : List Task,
      (run decode s (creates body n)).1.tasks.elems = s.tasks.elems ++ extra := by
  intro n
  induction n with
  | zero => intro s; exact ⟨[], by simp [creates, run]⟩
  | succ k ih =>
    intro s
    obtain ⟨extra, he⟩ := ih (addTask decode s body).1
    refine ⟨⟨wrapInt (s.taskID + 1), t.Content, false⟩ :: extra, ?_⟩
    rw [creates_succ]
    simp only [run, step]
    rw [he, addTask_decoded hd]
    simp [TaskSlice.elems]

/-- The store after `n` creates from the initial one: the counter is `n`, wrapped, and
the ids assigned are the first `n` the counter hands out. -/
theorem after_creates {decode : String → Option Task} {body : String} {t : Task}
    (hd : decode body = some t) (n : Nat) :
    (run decode Store.init (creates body n)).1.taskID = wrapInt (n : Int) ∧
      assignedIDs (run decode Store.init (creates body n)).2 = firstIDs n := by
  have hinv := inv_reachable decode (creates body n)
  have hlen := length_assignedIDs_creates hd n Store.init
  have h1 := hinv.counter
  have h2 := hinv.shape
  rw [hlen] at h1 h2
  exact ⟨h1, h2⟩

/-- After at least one create from the initial store, and no delete, the first stored
task is the one with id 1. -/
theorem first_after_creates {decode : String → Option Task} {body : String} {t : Task}
    (hd : decode body = some t) (n : Nat) (hn : 1 ≤ n) :
    ∃ extra : List Task, (run decode Store.init (creates body n)).1.tasks.elems =
      ⟨1, t.Content, false⟩ :: extra := by
  obtain ⟨k, rfl⟩ : ∃ k, n = k + 1 := ⟨n - 1, by omega⟩
  obtain ⟨extra, he⟩ := elems_creates hd k (addTask decode Store.init body).1
  refine ⟨extra, ?_⟩
  rw [creates_succ]
  simp only [run, step]
  rw [he, addTask_decoded hd]
  simp [TaskSlice.elems, Store.init, wrapInt_one]

/-! ## Creating tasks -/

/-- C1, as stated, fails where the counter wraps: after `2^63 - 1` creates the id
`2^63 - 1` has been assigned, and the next create is assigned `-2^63`, which is not
above it. -/
theorem addTask_wraps_at_max :
    (2 ^ 63 - 1 : Int) ∈
        assignedIDs (run sampleDecode Store.init (creates milkBody (2 ^ 63 - 1))).2 ∧
      assignedID (addTask sampleDecode
        (run sampleDecode Store.init (creates milkBody (2 ^ 63 - 1))).1 walkBody).2 =
          some (-2 ^ 63) ∧
      ¬ ((2 ^ 63 - 1 : Int) < -2 ^ 63) := by
  have hd : sampleDecode milkBody = some ⟨0, "buy milk", false⟩ := by decide
  have hw : sampleDecode walkBody = some ⟨7, "walk", true⟩ := by decide
  obtain ⟨hc, hids⟩ := after_creates hd (2 ^ 63 - 1)
  refine ⟨?_, ?_, by norm_num⟩
  · rw [hids]
    have hlast := @firstIDs_latest (2 ^ 63 - 1) (by norm_num)
    have hv : wrapInt ((2 ^ 63 - 1 : Nat) : Int) = 2 ^ 63 - 1 := by
      unfold wrapInt
      omega
    rw [hv] at hlast
    exact hlast
  · rw [addTask_decoded hw, assignedID_encodeTask, hc]
    have hv : wrapInt (wrapInt ((2 ^ 63 - 1 : Nat) : Int) + 1) = -2 ^ 63 := by
      unfold wrapInt
      omega
    rw [hv]

/-- C1, amended: in every store reached from the initial one by a run in which fewer
than `2^63 - 1` creates have succeeded, a create whose body decodes to content `C`
(whatever id and completed flag the body carries) answers 201 with the task of
content `C`, completed false and an id above every id assigned before, and appends
that task as the last stored element. -/
theorem addTask_creates (decode : String → Option Task) (ops : List Op) (s : Store)
    (rs : List Response) (body : String) (t : Task)
    (hrun : run decode Store.init ops = (s, rs))
    (hb : (assignedIDs rs).length < 2 ^ 63 - 1) (hd : decode body = some t) :
    addTask decode s body =
        (⟨some (s.tasks.elems ++ [⟨s.taskID + 1, t.Content, false⟩]), s.taskID + 1⟩,
          ⟨201, none, .json (encodeTask ⟨s.taskID + 1, t.Content, false⟩)⟩) ∧
      assignedID (addTask decode s body).2 = some (s.taskID + 1) ∧
      (∀ j ∈ assignedIDs rs, j < s.taskID + 1) ∧
      (addTask decode s body).1.tasks.elems.getLast? =
        some ⟨s.taskID + 1, t.Content, false⟩ := by
  have hinv := inv_of_run hrun
  have hcount : s.taskID = ((assignedIDs rs).length : Int) := by
    rw [hinv.counter]
    exact wrapInt_of_range (by omega) (by omega)
  have hk : wrapInt (s.taskID + 1) = s.taskID + 1 :=
    wrapInt_of_range (by omega) (by omega)
  rw [addTask_decoded hd, hk]
  refine ⟨rfl, assignedID_encodeTask _ _, ?_, ?_⟩
  · intro j hj
    rw [hinv.shape] at hj
    have := (firstIDs_bounded (by omega) hj).2
    omega
  · simp [TaskSlice.elems]

/-- C2, as stated, fails where the counter wraps: the ids assigned by `2^63` creates
in a row are not strictly increasing. -/
theorem ids_wrap_after_max :
    ¬ (assignedIDs (run sampleDecode Store.init (creates milkBody (2 ^ 63))).2).Pairwise
      (· < ·) := by
  have hd : sampleDecode milkBody = some ⟨0, "buy milk", false⟩ := by decide
  obtain ⟨_, hids⟩ := after_creates hd (2 ^ 63)
  rw [hids]
  intro h
  have h1 := @firstIDs_pairwise_lt (2 ^ 63) (2 ^ 63 - 2) (2 ^ 63 - 1) h (by norm_num)
    (by norm_num)
  unfold wrapInt at h1
  omega

/-- C2, amended: along every run from the initial store in which at most `2^63 - 1`
creates succeed, the ids assigned by the creates increase strictly, hence are
pairwise distinct, and the tasks stored in the state reached have pairwise distinct
ids. -/
theorem ids_distinct_increasing (decode : String → Option Task) (ops : List Op) (s : Store)
    (rs : List Response) (hrun : run decode Store.init ops = (s, rs))
    (hb : (assignedIDs rs).length ≤ 2 ^ 63 - 1) :
    (assignedIDs rs).Pairwise (· < ·) ∧ (assignedIDs rs).Nodup ∧ s.ids.Nodup := by
  have hinv := inv_of_run hrun
  have hinc : (assignedIDs rs).Pairwise (· < ·) := by
    rw [hinv.shape]
    exact firstIDs_increasing hb
  refine ⟨hinc, ?_, ?_⟩
  · exact hinc.imp (fun h => ne_of_lt h)
  · exact (hinc.sublist hinv.stored).imp (fun h => ne_of_lt h)

/-! ## The counter -/

/-- C8, as stated, fails: after one create the id 1 has been assigned and the counter
is 1, not above it. -/
theorem counter_equals_assigned_after_create :
    1 ∈ assignedIDs (run sampleDecode Store.init
        [Op.create milkBody]).2 ∧
      ¬ (1 < (run sampleDecode Store.init
        [Op.create milkBody]).1.taskID) := by
  have hd : sampleDecode milkBody = some ⟨0, "buy milk", false⟩ := by decide
  simp only [run, step, addTask_decoded hd, assignedIDs_cons, assignedID_encodeTask]
  simp [Store.init, assignedIDs, wrapInt_one]

/-- Where the counter wraps it falls below the ids assigned: after `2^63` creates it
is `-2^63`, and `2^63 - 1` has been assigned. -/
theorem counter_wraps_below_assigned :
    (run sampleDecode Store.init (creates milkBody (2 ^ 63))).1.taskID = -2 ^ 63 ∧
      (2 ^ 63 - 1 : Int) ∈
        assignedIDs (run sampleDecode Store.init (creates milkBody (2 ^ 63))).2 := by
  have hd : sampleDecode milkBody = some ⟨0, "buy milk", false⟩ := by decide
  obtain ⟨hc, hids⟩ := after_creates hd (2 ^ 63)
  refine ⟨?_, ?_⟩
  · rw [hc]
    unfold wrapInt
    omega
  · rw [hids]
    refine mem_firstIDs.2 ⟨2 ^ 63 - 2, by norm_num, ?_⟩
    unfold wrapInt
    omega

/-- C8, amended: in every store reached from the initial one by a run in which at most
`2^63 - 1` creates have succeeded, the counter is greater than or equal to every id
assigned so far, and once a create has succeeded it is itself the greatest id
assigned. -/
theorem counter_bounds_assigned (decode : String → Option Task) (ops : List Op)
    (hb : (assignedIDs (run decode Store.init ops).2).length ≤ 2 ^ 63 - 1) :
    (∀ j ∈ assignedIDs (run decode Store.init ops).2, j ≤ (run decode Store.init ops).1.taskID) ∧
      (assignedIDs (run decode Store.init ops).2 = [] ∨
        (run decode Store.init ops).1.taskID ∈ assignedIDs (run decode Store.init ops).2) := by
  have hinv := inv_reachable decode ops
  have hcount : (run decode Store.init ops).1.taskID =
      ((assignedIDs (run decode Store.init ops).2).length : Int) := by
    rw [hinv.counter]
    exact wrapInt_of_range (by omega) (by omega)
  refine ⟨?_, ?_⟩
  · intro j hj
    rw [hinv.shape] at hj
    have := (firstIDs_bounded hb hj).2
    omega
  · by_cases h : assignedIDs (run decode Store.init ops).2 = []
    · exact Or.inl h
    · refine Or.inr ?_
      have hne : (assignedIDs (run decode Store.init ops).2).length ≠ 0 := by
        intro h0
        exact h (List.length_eq_zero.1 h0)
      have hlast := firstIDs_latest hne
      rw [← hinv.shape, ← hinv.counter] at hlast
      exact hlast

/-! ## Deleting and completing -/

/-- In a store whose first and last tasks share an id, deleting that id leaves the
last one in place, and a second delete succeeds again. -/
theorem delete_twin {s : Store} {id : Int} {t1 t2 : Task} {extra : List Task}
    (he : s.tasks.elems = t1 :: (extra ++ [t2])) (h1 : t1.ID = id) (h2 : t2.ID = id) :
    id ∈ s.ids ∧ id ∈ (deleteTask s id).1.ids ∧
      (deleteTask (deleteTask s id).1 id).2.status = 204 := by
  have hdel := @deleteTask_found s id [] (extra ++ [t2]) t1 he h1 (by simp)
  have hmem : id ∈ (deleteTask s id).1.ids := by
    rw [hdel]
    show id ∈ List.map Task.ID ([] ++ (extra ++ [t2]))
    simp [h2]
  refine ⟨?_, hmem, ?_⟩
  · show id ∈ List.map Task.ID s.tasks.elems
    rw [he]
    simp [h1]
  · obtain ⟨pre, t, post, hl, ht, hpre⟩ := exists_first hmem
    rw [deleteTask_found hl ht hpre]

/-- After `n + 1` creates with no delete, where the counter has come back to 1, the
first and the last stored task both have id 1. -/
theorem twin_after_wrap {decode : String → Option Task} {body : String} {t : Task}
    (hd : decode body = some t) (n : Nat) (hn : 1 ≤ n) (hw : wrapInt ((n : Int) + 1) = 1) :
    ∃ extra : List Task, (run decode Store.init (creates body (n + 1))).1.tasks.elems =
      ⟨1, t.Content, false⟩ :: (extra ++ [⟨1, t.Content, false⟩]) := by
  obtain ⟨extra, he⟩ := first_after_creates hd n hn
  obtain ⟨hc, _⟩ := after_creates hd n
  refine ⟨extra, ?_⟩
  rw [creates_succ_last, run_creates_last, addTask_decoded hd, hc, wrapInt_succ, hw]
  show (run decode Store.init (creates body n)).1.tasks.elems ++ [⟨1, t.Content, false⟩] = _
  rw [he]
  rfl

/-- C3, as stated, fails once the counter has gone round: after `2^64 + 1` creates the
id 1 is stored twice, so after deleting it the store still holds a task with id 1
and a second delete answers 204 again. -/
theorem deleteTask_leaves_twin :
    (1 : Int) ∈ (run sampleDecode Store.init (creates milkBody (2 ^ 64 + 1))).1.ids ∧
      (1 : Int) ∈
        (deleteTask (run sampleDecode Store.init (creates milkBody (2 ^ 64 + 1))).1 1).1.ids ∧
      (deleteTask
        (deleteTask (run sampleDecode Store.init (creates milkBody (2 ^ 64 + 1))).1 1).1
        1).2.status = 204 := by
  have hd : sampleDecode milkBody = some ⟨0, "buy milk", false⟩ := by decide
  have hw : wrapInt (((2 ^ 64 : Nat) : Int) + 1) = 1 := by
    unfold wrapInt
    omega
  obtain ⟨extra, he⟩ := twin_after_wrap hd (2 ^ 64) (by norm_num) hw
  exact delete_twin he rfl rfl

/-- C3, amended: in every store reached from the initial one by a run in which at most
`2^64` creates have succeeded, deleting a stored id answers 204, the list returned
next holds no task with that id, and deleting the id again answers 404 "Task not
found". -/
theorem deleteTask_then_absent (decode : String → Option Task) (ops : List Op) (s : Store)
    (rs : List Response) (id : Int)
    (hrun : run decode Store.init ops = (s, rs))
    (hb : (assignedIDs rs).length ≤ 2 ^ 64) (hid : id ∈ s.ids) :
    ∃ (s1 : Store) (l : List Task),
      deleteTask s id = (s1, ⟨204, none, .empty⟩) ∧ s1.tasks = some l ∧
      getTasks s1 = (s1, ⟨200, some "application/json", .json (.arr (l.map encodeTask))⟩) ∧
      (∀ x ∈ l, x.ID ≠ id) ∧
      deleteTask s1 id = (s1, httpError "Task not found" 404) := by
  have hinv := inv_of_run hrun
  have hnd : s.ids.Nodup := by
    have hids : (assignedIDs rs).Nodup := by
      rw [hinv.shape]
      exact firstIDs_nodup hb
    exact hids.sublist hinv.stored
  obtain ⟨pre, t, post, hl, ht, hpre⟩ := exists_first hid
  have hpost : ∀ x ∈ post, x.ID ≠ id := by
    intro x hx hxid
    unfold Store.ids at hnd
    rw [hl, List.map_append, List.map_cons] at hnd
    have h3 := (List.nodup_cons.1 (List.nodup_append.1 hnd).2.1).1
    exact h3 (by rw [ht, ← hxid]; exact List.mem_map_of_mem _ hx)
  have hall : ∀ x ∈ pre ++ post, x.ID ≠ id := by
    intro x hx
    rcases List.mem_append.1 hx with hx | hx
    · exact hpre x hx
    · exact hpost x hx
  refine ⟨⟨some (pre ++ post), s.taskID⟩, pre ++ post, deleteTask_found hl ht hpre, rfl, rfl,
    hall, ?_⟩
  exact deleteTask_not_found hall

/-- C4: in every store reached from the initial one, for an id no create has
assigned, delete and mark-complete both answer 404 "Task not found" and leave the
stored sequence and the counter as they were. -/
theorem unknown_id_not_found (decode : String → Option Task) (ops : List Op) (s : Store)
    (rs : List Response) (id : Int)
    (hrun : run decode Store.init ops = (s, rs)) (hid : id ∉ assignedIDs rs) :
    deleteTask s id = (s, httpError "Task not found" 404) ∧
      markTaskCompleted s id = (s, httpError "Task not found" 404) := by
  have hinv := inv_of_run hrun
  have hall : ∀ x ∈ s.tasks.elems, x.ID ≠ id := by
    intro x hx hxid
    exact hid (hinv.stored.subset (hxid ▸ List.mem_map_of_mem _ hx))
  exact ⟨deleteTask_not_found hall, markTaskCompleted_not_found hall⟩

/-- C5, as stated, fails once the counter has gone round: after `2^64` creates of
"buy milk" task 1 is still stored and the counter is back at 0, so a create of
"walk" is assigned id 1 again and marking 1 completed answers with the older task
"buy milk", not with the one just created. -/
theorem complete_hits_older_task :
    assignedID (addTask sampleDecode
        (run sampleDecode Store.init (creates milkBody (2 ^ 64))).1 walkBody).2 = some 1 ∧
      (markTaskCompleted (addTask sampleDecode
        (run sampleDecode Store.init (creates milkBody (2 ^ 64))).1 walkBody).1 1).2 =
        ⟨200, some "application/json", .json (encodeTask ⟨1, "buy milk", true⟩)⟩ ∧
      encodeTask ⟨1, "buy milk", true⟩ ≠ encodeTask ⟨1, "walk", true⟩ := by
  have hd : sampleDecode milkBody = some ⟨0, "buy milk", false⟩ := by decide
  have hw : sampleDecode walkBody = some ⟨7, "walk", true⟩ := by decide
  obtain ⟨hc, _⟩ := after_creates hd (2 ^ 64)
  obtain ⟨extra, he⟩ := first_after_creates hd (2 ^ 64) (by norm_num)
  have hk : wrapInt (wrapInt ((2 ^ 64 : Nat) : Int) + 1) = 1 := by
    unfold wrapInt
    omega
  generalize (run sampleDecode Store.init (creates milkBody (2 ^ 64))).1 = S at hc he ⊢
  rw [addTask_decoded hw, hc, hk]
  refine ⟨assignedID_encodeTask _ _, ?_, by simp [encodeTask]⟩
  rw [@markTaskCompleted_found
    (Store.mk (some (S.tasks.elems ++ [Task.mk 1 "walk" false])) 1) 1 []
    (extra ++ [Task.mk 1 "walk" false]) (Task.mk 1 "buy milk" false)
    (by rw [he]; rfl) rfl (by simp)]

/-- C5, amended: in every store reached from the initial one by a run in which fewer
than `2^64` creates have succeeded, a create with content `C` is assigned an id `k`
(the counter plus one, wrapped); marking `k` completed next answers 200 with the
task `k`, `C`, completed, and the list returned then holds exactly one task with id
`k`, which is completed. -/
theorem create_then_complete (decode : String → Option Task) (ops : List Op) (s : Store)
    (rs : List Response) (body : String) (t : Task)
    (hrun : run decode Store.init ops = (s, rs))
    (hb : (assignedIDs rs).length < 2 ^ 64) (hd : decode body = some t) :
    assignedID (addTask decode s body).2 = some (wrapInt (s.taskID + 1)) ∧
      ∃ (s2 : Store) (l : List Task),
        markTaskCompleted (addTask decode s body).1 (wrapInt (s.taskID + 1)) =
          (s2, ⟨200, some "application/json",
            .json (encodeTask ⟨wrapInt (s.taskID + 1), t.Content, true⟩)⟩) ∧
        s2.tasks = some l ∧
        getTasks s2 = (s2, ⟨200, some "application/json", .json (.arr (l.map encodeTask))⟩) ∧
        l.filter (fun x => x.ID = wrapInt (s.taskID + 1)) =
          [⟨wrapInt (s.taskID + 1), t.Content, true⟩] := by
  have hinv := inv_of_run hrun
  have hk : wrapInt (s.taskID + 1) = wrapInt (((assignedIDs rs).length : Int) + 1) := by
    rw [hinv.counter, wrapInt_succ]
  have hpre : ∀ x ∈ s.tasks.elems, x.ID ≠ wrapInt (s.taskID + 1) := by
    intro x hx hxid
    have hmem : x.ID ∈ assignedIDs rs := hinv.stored.subset (List.mem_map_of_mem _ hx)
    rw [hinv.shape, hxid, hk] at hmem
    exact firstIDs_fresh hb hmem
  rw [addTask_decoded hd]
  have hmark := @markTaskCompleted_found
    (Store.mk (some (s.tasks.elems ++ [Task.mk (wrapInt (s.taskID + 1)) t.Content false]))
      (wrapInt (s.taskID + 1)))
    (wrapInt (s.taskID + 1)) s.tasks.elems [] (Task.mk (wrapInt (s.taskID + 1)) t.Content false)
    rfl rfl hpre
  refine ⟨assignedID_encodeTask _ _, ?_⟩
  refine ⟨Store.mk (some (s.tasks.elems ++ [Task.mk (wrapInt (s.taskID + 1)) t.Content true]))
    (wrapInt (s.taskID + 1)),
    s.tasks.elems ++ [Task.mk (wrapInt (s.taskID + 1)) t.Content true], hmark, rfl, rfl, ?_⟩
  · rw [List.filter_append]
    have h0 : s.tasks.elems.filter (fun x => x.ID = wrapInt (s.taskID + 1)) = [] := by
      rw [List.filter_eq_nil_iff]
      intro x hx
      simpa using hpre x hx
    simp [h0]

/-! ## Parsing the id of a path -/

theorem digit_toNat {c : Char} (h : c.isDigit = true) : 48 ≤ c.toNat ∧ c.toNat ≤ 57 := by
  simp only [Char.isDigit, Bool.and_eq_true, decide_eq_true_eq] at h
  obtain ⟨h1, h2⟩ := h
  rw [ge_iff_le, UInt32.le_def] at h1
  rw [UInt32.le_def] at h2
  exact ⟨h1, h2⟩

theorem digit_not_space {c : Char} (h : c.isDigit = true) :
    c ≠ '\n' ∧ isSpace c = false ∧ c ≠ '+' ∧ c ≠ '-' := by
  have hb := digit_toNat h
  refine ⟨?_, ?_, ?_, ?_⟩
  · rintro rfl
    revert hb
    decide
  · simp only [isSpace, Bool.or_eq_false_iff, Bool.and_eq_false_iff, decide_eq_false_iff_not,
      beq_eq_false_iff_ne]
    omega
  · rintro rfl
    revert hb
    decide
  · rintro rfl
    revert hb
    decide

theorem matchLiteral_append (f x : List Char) : matchLiteral f (f ++ x) = some x := by
  induction f with
  | nil => simp [matchLiteral]
  | cons a as ih => simp [matchLiteral, ih]

theorem skipSpace_digit {c : Char} (cs : List Char) (h : c.isDigit = true) :
    skipSpace (c :: cs) = some (c :: cs) := by
  obtain ⟨h1, h2, _, _⟩ := digit_not_space h
  simp [skipSpace, h1, h2]

theorem parseInt_digits {c : Char} {cs : List Char} (hc : c.isDigit = true)
    (hcs : ∀ d ∈ cs, d.isDigit = true) (hval : digitsValue (c :: cs) < 2 ^ 63) :
    parseInt (c :: cs) = some (digitsValue (c :: cs) : Int) := by
  obtain ⟨_, _, h3, h4⟩ := digit_not_space hc
  have hall : (c :: cs).all Char.isDigit = true := by
    simp only [List.all_cons, hc, Bool.true_and, List.all_eq_true]
    exact hcs
  have hsplit : splitSign (c :: cs) = (false, c :: cs) := by
    unfold splitSign
    split
    · rename_i heq
      simp only [List.cons.injEq] at heq
      exact absurd heq.1 h3
    · rename_i heq
      simp only [List.cons.injEq] at heq
      exact absurd heq.1 h4
    · rfl
  simp only [parseInt, hsplit, hall, List.isEmpty_cons, Bool.not_true, Bool.or_self,
    Bool.false_eq_true, if_false, Bool.not_false, Bool.true_and, Bool.false_and,
    decide_eq_true_eq, ge_iff_le]
  rw [if_neg (by omega)]

theorem scanInt_digits {c : Char} {cs : List Char} (rest : List Char) (hc : c.isDigit = true)
    (hcs : ∀ d ∈ cs, d.isDigit = true)
    (hrest : ∀ d, rest.head? = some d → isNumberRune d = false)
    (hval : digitsValue (c :: cs) < 2 ^ 63) :
    scanInt (c :: (cs ++ rest)) = some (digitsValue (c :: cs) : Int) := by
  obtain ⟨_, _, h3, h4⟩ := digit_not_space hc
  have hrun : (c :: (cs ++ rest)).takeWhile isNumberRune = c :: cs := by
    have h1 : ∀ d ∈ c :: cs, isNumberRune d = true := by
      intro d hd
      rcases List.mem_cons.1 hd with rfl | hd
      · simp [isNumberRune, hc]
      · simp [isNumberRune, hcs d hd]
    have h2 : rest.takeWhile isNumberRune = [] := by
      cases rest with
      | nil => rfl
      | cons d ds => simp [List.takeWhile, hrest d rfl]
    have h5 := @List.takeWhile_append_of_pos _ isNumberRune (c :: cs) rest h1
    rw [h2, List.append_nil] at h5
    simpa using h5
  have hsign : ¬ (c = '+' ∨ c = '-') := fun h => h.elim h3 h4
  unfold scanInt
  rw [skipSpace_digit _ hc]
  dsimp only
  rw [if_neg hsign, if_neg hsign, hrun]
  simp only [List.isEmpty_cons, Bool.false_eq_true, if_false, List.nil_append]
  exact parseInt_digits hc hcs hval

/-- Whatever follows a run of digits in the path is ignored: the id is the value of
the digits. -/
theorem extractTaskID_digits_prefix (c : Char) (cs rest : List Char) (hc : c.isDigit = true)
    (hcs : ∀ d ∈ cs, d.isDigit = true)
    (hrest : ∀ d, rest.head? = some d → isNumberRune d = false)
    (hval : digitsValue (c :: cs) < 2 ^ 63) :
    extractTaskID (String.mk ("/tasks/".toList ++ (c :: (cs ++ rest)))) =
      some (digitsValue (c :: cs) : Int) := by
  have hm := matchLiteral_append "/tasks/".toList (c :: (cs ++ rest))
  unfold extractTaskID
  rw [show (String.mk ("/tasks/".toList ++ (c :: (cs ++ rest)))).toList =
    "/tasks/".toList ++ (c :: (cs ++ rest)) from rfl, hm]
  simp only [skipSpace_digit _ hc]
  exact scanInt_digits rest hc hcs hrest hval

/-- C6: the paths `/tasks/1abc` and `/tasks/12abc`, whose suffix is digits followed by
letters, are parsed as ids 1 and 12, and a DELETE on the first removes task 1
from the store reached by one create instead of answering 400; the suffixes that fail to parse (the empty one, letters
only) are answered 400 "Invalid task ID" with the store unchanged. -/
theorem extractTaskID_accepts_trailing :
    extractTaskID "/tasks/1abc" = some 1 ∧ extractTaskID "/tasks/12abc" = some 12 ∧
      handleTaskByID (addTask sampleDecode Store.init milkBody).1
          ⟨"DELETE", "/tasks/1abc", ""⟩ =
        (⟨some [], 1⟩, ⟨204, none, .empty⟩) ∧
      extractTaskID "/tasks/" = none ∧ extractTaskID "/tasks/abc" = none ∧
      ∀ (s : Store) (r : Request), extractTaskID r.path = none →
        handleTaskByID s r = (s, httpError "Invalid task ID" 400) := by
  refine ⟨by decide, by decide, ?_, by decide, by decide, ?_⟩
  · have h1 : extractTaskID "/tasks/1abc" = some 1 := by decide
    have h2 : (addTask sampleDecode Store.init milkBody).1 =
        ⟨some [⟨1, "buy milk", false⟩], 1⟩ := by
      rw [addTask_decoded (t := ⟨0, "buy milk", false⟩) (by decide)]
      simp only [Store.init, zero_add, wrapInt_one]
      rfl
    rw [h2]
    simp only [handleTaskByID, h1, if_true]
    exact @deleteTask_found ⟨some [⟨1, "buy milk", false⟩], 1⟩ 1 [] [] ⟨1, "buy milk", false⟩
      rfl rfl (by simp)
  · intro s r h
    simp [handleTaskByID, h]

/-! ## Listing -/

/-- C7: at process start, where `tasks` is the nil slice, the list answers 200 with
JSON `null`, which is no array, and so it does in every store reached before the
first successful create; once a create has succeeded the list answers with the
array of the stored tasks in stored order (the empty array after the only task is
deleted), and the list never changes the store. -/
theorem getTasks_initial_null :
    getTasks Store.init = (Store.init, ⟨200, some "application/json", .json .null⟩) ∧
      (∀ items : List Json, Json.null ≠ Json.arr items) ∧
      getTasks (deleteTask milkStore 1).1 =
        ((deleteTask milkStore 1).1, ⟨200, some "application/json", .json (.arr [])⟩) ∧
      (∀ (decode : String → Option Task) (ops : List Op),
        getTasks (run decode Store.init ops).1 =
          ((run decode Store.init ops).1, ⟨200, some "application/json", .json
            (if assignedIDs (run decode Store.init ops).2 = [] then Json.null
              else Json.arr ((run decode Store.init ops).1.tasks.elems.map encodeTask))⟩)) := by
  refine ⟨rfl, ?_, ?_, ?_⟩
  · intro items h
    cases h
  · rw [@deleteTask_found milkStore 1 [] [] ⟨1, "buy milk", false⟩ rfl rfl (by simp)]
    rfl
  · intro decode ops
    have h := alloc_reachable decode ops
    cases ht : (run decode Store.init ops).1.tasks with
    | none => simp [getTasks, ht, encodeTasks, h.1 ht]
    | some l =>
      have hne : assignedIDs (run decode Store.init ops).2 ≠ [] := by
        intro hnil
        rw [h.2 hnil] at ht
        cases ht
      simp [getTasks, ht, encodeTasks, hne, TaskSlice.elems]

/-! ## Frame of delete and of the other operations -/

/-- C9: for every store and every id held by a stored task, delete removes exactly
the first task with that id: the new sequence is the old one with that element
erased, the other tasks unchanged and in order, one element shorter, and the
counter is unchanged. -/
theorem deleteTask_erases_first (s : Store) (id : Int) (hid : id ∈ s.ids) :
    ∃ (pre : List Task) (t : Task) (post : List Task),
      s.tasks.elems = pre ++ t :: post ∧ t.ID = id ∧ (∀ x ∈ pre, x.ID ≠ id) ∧
      deleteTask s id = (⟨some (pre ++ post), s.taskID⟩, ⟨204, none, .empty⟩) ∧
      pre ++ post = s.tasks.elems.eraseIdx pre.length ∧
      List.Sublist (pre ++ post) s.tasks.elems ∧
      (pre ++ post).length + 1 = s.tasks.elems.length := by
  obtain ⟨pre, t, post, hl, ht, hpre⟩ := exists_first hid
  refine ⟨pre, t, post, hl, ht, hpre, deleteTask_found hl ht hpre, ?_, ?_, ?_⟩
  · rw [hl, List.eraseIdx_append_of_length_le (le_refl _)]
    simp
  · rw [hl]
    exact (List.Sublist.refl pre).append (List.sublist_cons_self t post)
  · rw [hl]
    simp
    omega

theorem evolves_refl (op : Op) (l : List Task) : List.Forall₂ (Evolves op) l l := by
  induction l with
  | nil => exact List.Forall₂.nil
  | cons t ts ih =>
    refine List.Forall₂.cons ⟨rfl, rfl, fun h => h, ?_⟩ ih
    intro h1 h2
    rw [h1] at h2
    cases h2

theorem evolves_complete (id : Int) (pre post : List Task) (t : Task) (ht : t.ID = id) :
    List.Forall₂ (Evolves (Op.complete id)) (pre ++ t :: post)
      (pre ++ { t with Completed := true } :: post) := by
  induction pre with
  | nil =>
    exact List.Forall₂.cons ⟨rfl, rfl, fun _ => rfl, fun _ _ => by rw [ht]⟩
      (evolves_refl _ post)
  | cons x xs ih =>
    refine List.Forall₂.cons ⟨rfl, rfl, fun h => h, ?_⟩ ih
    intro h1 h2
    rw [h1] at h2
    cases h2

/-- C10: for every store and every single operation, the new sequence is made of the
tasks kept from the old one, in order, followed by the task a create adds; every
old task is kept unless the operation is a delete; a kept task has the same id and
content, stays completed if it was, and becomes completed only when the operation
is a mark-complete on its own id. -/
theorem step_frame (decode : String → Option Task) (s : Store) (op : Op) :
    ∃ (kept kept1 added : List Task),
      List.Sublist kept s.tasks.elems ∧
      (kept = s.tasks.elems ∨ ∃ id, op = Op.delete id) ∧
      (added = [] ∨ ∃ body, op = Op.create body) ∧
      List.Forall₂ (Evolves op) kept kept1 ∧
      (step decode s op).1.tasks.elems = kept1 ++ added := by
  cases op with
  | list =>
    exact ⟨s.tasks.elems, s.tasks.elems, [], List.Sublist.refl _, Or.inl rfl, Or.inl rfl,
      evolves_refl _ _, by simp [step, getTasks]⟩
  | create body =>
    cases hd : decode body with
    | none =>
      exact ⟨s.tasks.elems, s.tasks.elems, [], List.Sublist.refl _, Or.inl rfl, Or.inl rfl,
        evolves_refl _ _, by simp [step, addTask_undecoded hd]⟩
    | some t =>
      exact ⟨s.tasks.elems, s.tasks.elems, [⟨wrapInt (s.taskID + 1), t.Content, false⟩],
        List.Sublist.refl _, Or.inl rfl, Or.inr ⟨body, rfl⟩, evolves_refl _ _,
        by simp [step, addTask_decoded hd, TaskSlice.elems]⟩
  | delete id =>
    cases hf : findTask id s.tasks.elems with
    | none =>
      exact ⟨s.tasks.elems, s.tasks.elems, [], List.Sublist.refl _, Or.inl rfl, Or.inl rfl,
        evolves_refl _ _,
        by simp [step, deleteTask_not_found (findTask_eq_none.1 hf)]⟩
    | some i =>
      obtain ⟨pre, t, post, hl, _, ht, hpre⟩ := findTask_eq_some hf
      refine ⟨pre ++ post, pre ++ post, [], ?_, Or.inr ⟨id, rfl⟩, Or.inl rfl,
        evolves_refl _ _, by simp [step, deleteTask_found hl ht hpre, TaskSlice.elems]⟩
      rw [hl]
      exact (List.Sublist.refl pre).append (List.sublist_cons_self t post)
  | complete id =>
    cases hf : findTask id s.tasks.elems with
    | none =>
      exact ⟨s.tasks.elems, s.tasks.elems, [], List.Sublist.refl _, Or.inl rfl, Or.inl rfl,
        evolves_refl _ _,
        by simp [step, markTaskCompleted_not_found (findTask_eq_none.1 hf)]⟩
    | some i =>
      obtain ⟨pre, t, post, hl, _, ht, hpre⟩ := findTask_eq_some hf
      refine ⟨s.tasks.elems, pre ++ { t with Completed := true } :: post, [],
        List.Sublist.refl _, Or.inl rfl, Or.inl rfl, ?_,
        by simp [step, markTaskCompleted_found hl ht hpre, TaskSlice.elems]⟩
      rw [hl]
      exact evolves_complete id pre post t ht

/-! ## The theorems at concrete runs -/

theorem addTask_creates_witness :
    run sampleDecode Store.init [Op.create milkBody] = (milkStore, [milkResponse]) ∧
      (assignedIDs [milkResponse]).length < 2 ^ 63 - 1 ∧
      sampleDecode walkBody = some ⟨7, "walk", true⟩ ∧
      (addTask sampleDecode milkStore walkBody =
          (⟨some [⟨1, "buy milk", false⟩, ⟨2, "walk", false⟩], 2⟩,
            ⟨201, none, .json (encodeTask ⟨2, "walk", false⟩)⟩) ∧
        assignedID (addTask sampleDecode milkStore walkBody).2 = some 2 ∧
        (∀ j ∈ assignedIDs [milkResponse], j < 2) ∧
        (addTask sampleDecode milkStore walkBody).1.tasks.elems.getLast? =
          some ⟨2, "walk", false⟩) :=
  ⟨rfl, by decide, by decide,
    addTask_creates sampleDecode [Op.create milkBody] milkStore [milkResponse] walkBody
      ⟨7, "walk", true⟩ rfl (by decide) (by decide)⟩

theorem ids_distinct_increasing_witness :
    run sampleDecode Store.init [Op.create milkBody] = (milkStore, [milkResponse]) ∧
      (assignedIDs [milkResponse]).length ≤ 2 ^ 63 - 1 ∧
      ((assignedIDs [milkResponse]).Pairwise (· < ·) ∧ (assignedIDs [milkResponse]).Nodup ∧
        milkStore.ids.Nodup) :=
  ⟨rfl, by decide,
    ids_distinct_increasing sampleDecode [Op.create milkBody] milkStore [milkResponse] rfl
      (by decide)⟩

theorem counter_bounds_assigned_witness :
    (assignedIDs (run sampleDecode Store.init [Op.create milkBody]).2).length ≤ 2 ^ 63 - 1 ∧
      ((∀ j ∈ assignedIDs (run sampleDecode Store.init [Op.create milkBody]).2,
          j ≤ (run sampleDecode Store.init [Op.create milkBody]).1.taskID) ∧
        (assignedIDs (run sampleDecode Store.init [Op.create milkBody]).2 = [] ∨
          (run sampleDecode Store.init [Op.create milkBody]).1.taskID ∈
            assignedIDs (run sampleDecode Store.init [Op.create milkBody]).2)) :=
  ⟨by decide, counter_bounds_assigned sampleDecode [Op.create milkBody] (by decide)⟩

theorem deleteTask_then_absent_witness :
    run sampleDecode Store.init [Op.create milkBody] = (milkStore, [milkResponse]) ∧
      (assignedIDs [milkResponse]).length ≤ 2 ^ 64 ∧
      (1 : Int) ∈ milkStore.ids ∧
      ∃ (s1 : Store) (l : List Task),
        deleteTask milkStore 1 = (s1, ⟨204, none, .empty⟩) ∧ s1.tasks = some l ∧
        getTasks s1 = (s1, ⟨200, some "application/json", .json (.arr (l.map encodeTask))⟩) ∧
        (∀ x ∈ l, x.ID ≠ 1) ∧
        deleteTask s1 1 = (s1, httpError "Task not found" 404) :=
  ⟨rfl, by decide, by decide,
    deleteTask_then_absent sampleDecode [Op.create milkBody] milkStore [milkResponse] 1 rfl
      (by decide) (by decide)⟩

theorem create_then_complete_witness :
    run sampleDecode Store.init [Op.create milkBody] = (milkStore, [milkResponse]) ∧
      (assignedIDs [milkResponse]).length < 2 ^ 64 ∧
      sampleDecode walkBody = some ⟨7, "walk", true⟩ ∧
      (assignedID (addTask sampleDecode milkStore walkBody).2 = some 2 ∧
        ∃ (s2 : Store) (l : List Task),
          markTaskCompleted (addTask sampleDecode milkStore walkBody).1 2 =
            (s2, ⟨200, some "application/json", .json (encodeTask ⟨2, "walk", true⟩)⟩) ∧
          s2.tasks = some l ∧
          getTasks s2 =
            (s2, ⟨200, some "application/json", .json (.arr (l.map encodeTask))⟩) ∧
          l.filter (fun x => x.ID = 2) = [⟨2, "walk", true⟩]) :=
  ⟨rfl, by decide, by decide,
    create_then_complete sampleDecode [Op.create milkBody] milkStore [milkResponse] walkBody
      ⟨7, "walk", true⟩ rfl (by decide) (by decide)⟩

theorem unknown_id_not_found_witness :
    run sampleDecode Store.init [Op.create milkBody] = (milkStore, [milkResponse]) ∧
      (5 : Int) ∉ assignedIDs [milkResponse] ∧
      (deleteTask milkStore 5 = (milkStore, httpError "Task not found" 404) ∧
        markTaskCompleted milkStore 5 = (milkStore, httpError "Task not found" 404)) :=
  ⟨rfl, by decide,
    unknown_id_not_found sampleDecode [Op.create milkBody] milkStore [milkResponse] 5 rfl
      (by decide)⟩

theorem deleteTask_erases_first_witness :
    (2 : Int) ∈ twinStore.ids ∧
      ∃ (pre : List Task) (t : Task) (post : List Task),
        twinStore.tasks.elems = pre ++ t :: post ∧ t.ID = 2 ∧ (∀ x ∈ pre, x.ID ≠ 2) ∧
        deleteTask twinStore 2 = (⟨some (pre ++ post), 3⟩, ⟨204, none, .empty⟩) ∧
        pre ++ post = twinStore.tasks.elems.eraseIdx pre.length ∧
        List.Sublist (pre ++ post) twinStore.tasks.elems ∧
        (pre ++ post).length + 1 = twinStore.tasks.elems.length :=
  ⟨by decide, deleteTask_erases_first twinStore 2 (by decide)⟩

end TodoAPI
